import Mathlib

/- Verification development for the core math of the mortgage refinance
   analyzer (src/mortgage_tools/app.py).  Python floats are modelled as
   exact rationals.  A `none` result marks a computation that raises a
   Python exception (KeyError, broadcasting ValueError) or a real power
   with a non-integral exponent, which has no exact rational value. -/

/-- Default relative tolerance of Python's `math.isclose` (1e-09). -/
def relTol : ℚ := 1 / 10 ^ 9

/-- Default absolute tolerance of Python's `math.isclose` (0.0). -/
def absTol : ℚ := 0

/-- Model of `math.isclose(a, b)` with default tolerances:
`abs(a-b) <= max(rel_tol * max(abs(a), abs(b)), abs_tol)`. -/
def isclose (a b : ℚ) : Bool :=
  decide (|a - b| ≤ max (relTol * max |a| |b|) absTol)

/-- Model of Python's `round` on a float: round half to even of the exact
rational value. -/
def pyRound (q : ℚ) : ℤ :=
  if q - ⌊q⌋ < 1 / 2 then ⌊q⌋
  else if 1 / 2 < q - ⌊q⌋ then ⌊q⌋ + 1
  else if Even ⌊q⌋ then ⌊q⌋ else ⌊q⌋ + 1

/-- Model of float `x ** e` for the exponents the program produces.  When the
exponent is an integer the float power is the exact integer power; a
non-integral exponent yields an irrational real in general, which ℚ cannot
represent, so the embedding returns `none` there. -/
def qpowOpt (x e : ℚ) : Option ℚ :=
  if e.den = 1 then some (x ^ e.num) else none

/-- `payment` from app.py (lines 18-47): level payment of a fully amortizing
loan.  `n = years * periods_per_year`; if `n == 0` return `principal`; with
`r = annual_rate_pct / 100 / periods_per_year`, if `isclose(r, 0.0)` return
`principal / n`, else `r * principal / (1 - (1 + r) ** (-n))`.  (ℚ division
by zero yields 0 where Python would raise ZeroDivisionError; with a nonzero
rate that divisor `1 - (1+r)^(-n)` can vanish only for per-period rates
≤ -100%, which no claim exercises.) -/
def payment (principal annual_rate_pct years periods_per_year : ℚ) : Option ℚ :=
  let n := years * periods_per_year
  if n = 0 then some principal
  else
    let r := annual_rate_pct / 100 / periods_per_year
    if isclose r 0 then some (principal / n)
    else
      match qpowOpt (1 + r) (-n) with
      | some w => some (r * principal / (1 - w))
      | none => none

/-- One row of the amortization schedule (the dict built in app.py
lines 122-131). -/
structure Row where
  period : ℕ
  interest : ℚ
  principal : ℚ
  extra_principal : ℚ
  payment : ℚ
  balance : ℚ
  deriving DecidableEq

/-- The all-zero row used when a schedule is padded (app.py lines 258-272
fill every column with 0.0). -/
def zeroRow : Row := ⟨0, 0, 0, 0, 0, 0⟩

/-- One iteration of the `while` body of `amortization_schedule`
(app.py lines 114-131), producing the emitted row; its `balance` field is
the balance after the period. -/
def mkRow (r base_pmt extra_pp : ℚ) (period : ℕ) (balance : ℚ) : Row :=
  let interest := balance * r
  let principal_component := base_pmt - interest
  let extra := min extra_pp (max (balance - principal_component) 0)
  let principal_pay := min (principal_component + extra) balance
  let total_payment := interest + principal_pay
  ⟨period, interest, principal_component, extra, total_payment,
    max (balance - principal_pay) 0⟩

/-- The `while balance > 0 and period < max_periods + 600` loop of
`amortization_schedule`, with the remaining permitted iterations as fuel
(`fuel = max_periods + 600 - period`, so the fuel reaching 0 is exactly the
cap condition).  The `if balance <= 0: break` after the append is the inner
`if`. -/
def amortLoop (r base_pmt extra_pp : ℚ) : ℕ → ℕ → ℚ → List Row
  | 0, _, _ => []
  | fuel + 1, period, balance =>
    if 0 < balance then
      let row := mkRow r base_pmt extra_pp (period + 1) balance
      if row.balance ≤ 0 then [row]
      else row :: amortLoop r base_pmt extra_pp fuel (period + 1) row.balance
    else []

/-- A pandas DataFrame holding schedule rows.  `hasCols` records whether the
frame carries the schedule columns: `pd.DataFrame(rows)` has them exactly
when `rows` is nonempty, and selecting a column from a column-less frame
raises KeyError. -/
structure PDFrame where
  rows : List Row
  hasCols : Bool
  deriving DecidableEq

/-- `pd.DataFrame(rows)` for a list of row dicts: the columns exist iff the
list is nonempty. -/
def toFrame (rows : List Row) : PDFrame := ⟨rows, !rows.isEmpty⟩

/-- `amortization_schedule` from app.py (lines 84-136). -/
def amortization_schedule (principal annual_rate_pct years periods_per_year
    extra_principal_per_period : ℚ) : Option PDFrame :=
  match payment principal annual_rate_pct years periods_per_year with
  | none => none
  | some base_pmt =>
    let r := annual_rate_pct / 100 / periods_per_year
    let max_periods := pyRound (years * periods_per_year)
    some (toFrame (amortLoop r base_pmt extra_principal_per_period
      (max_periods + 600).toNat 0 principal))

/-- `total_interest_from_schedule` from app.py (lines 139-148):
`float(df["interest"].sum())`.  On a frame without columns (the
`pd.DataFrame([])` produced for an empty row list) the column selection
raises KeyError, modelled as `none`. -/
def total_interest_from_schedule (df : PDFrame) : Option ℚ :=
  if df.hasCols then some ((df.rows.map Row.interest).sum) else none

/-- `DataFrame.head(n)`: the first `n` rows; for negative `n`, all rows but
the last `|n|`. -/
def pdHead (xs : List Row) (n : ℤ) : List Row :=
  if 0 ≤ n then xs.take n.toNat else xs.take ((xs.length : ℤ) + n).toNat

/-- The zero-padding step of `build_savings_stream` (app.py lines 257-272):
if the truncated schedule has fewer than `months` rows, append all-zero rows
up to `months`. -/
def padToMonths (xs : List Row) (months : ℤ) : List Row :=
  if (xs.length : ℤ) < months then
    xs ++ List.replicate (months - xs.length).toNat zeroRow
  else xs

/-- numpy elementwise subtraction of two 1-d arrays, including length-1
broadcasting; mismatched lengths otherwise raise ValueError (`none`). -/
def npSub (a b : List ℚ) : Option (List ℚ) :=
  if a.length = b.length then some (List.zipWith (fun x y => x - y) a b)
  else if a.length = 1 then some (b.map fun y => a.headD 0 - y)
  else if b.length = 1 then some (a.map fun x => x - b.headD 0)
  else none

/-- `build_savings_stream` from app.py (lines 234-276).  Truncate/pad both
schedules to the horizon, then subtract the payment-plus-PMI arrays.  The
column selections `cur["payment"]` / `new["payment"]` raise KeyError when the
frame has no columns (truncation and the pad, which copies `cur.columns`,
never add columns). -/
def build_savings_stream (cur_sched new_sched : PDFrame) (months : ℤ)
    (cur_pmi new_pmi : ℚ) : Option (List ℚ) :=
  let cur := padToMonths (pdHead cur_sched.rows months) months
  let newL := padToMonths (pdHead new_sched.rows months) months
  if cur_sched.hasCols && new_sched.hasCols then
    npSub (cur.map fun row => row.payment + cur_pmi)
      (newL.map fun row => row.payment + new_pmi)
  else none

/-- Total indexing into a schedule (used only at indices below the length;
the default is irrelevant there). -/
def rowAt (s : List Row) (i : ℕ) : Row := s.getD i zeroRow

/-- The balance entering row `i`: the starting principal for the first row,
the previous row's ending balance afterwards. -/
def prevBal (principal : ℚ) (s : List Row) (i : ℕ) : ℚ :=
  if i = 0 then principal else (rowAt s (i - 1)).balance

/- ------------------------------------------------------------------ -/
/- Basic characterizations                                            -/
/- ------------------------------------------------------------------ -/

/-- With the default tolerances (`rel_tol = 1e-9`, `abs_tol = 0.0`),
`math.isclose(r, 0.0)` holds exactly for `r = 0`: the relative bound
collapses to `|r| ≤ 1e-9 * |r|`. -/
theorem isclose_zero_iff (r : ℚ) : isclose r 0 = true ↔ r = 0 := by
  unfold isclose relTol absTol
  rw [decide_eq_true_eq]
  constructor
  · intro h
    rcases le_or_lt (|r - 0|) 0 with h0 | h0
    · have := abs_nonneg (r - 0)
      have : r - 0 = 0 := abs_eq_zero.mp (le_antisymm h0 this)
      linarith [this]
    · exfalso
      rw [sub_zero] at h h0
      rw [abs_zero, max_eq_left (abs_nonneg r)] at h
      have hmax : max (1 / 10 ^ 9 * |r|) 0 = 1 / 10 ^ 9 * |r| := by
        apply max_eq_left
        positivity
      rw [hmax] at h
      nlinarith [h0, h]
  · intro h
    subst h
    simp

theorem pyRound_natCast (n : ℕ) : pyRound (n : ℚ) = n := by
  unfold pyRound
  rw [Int.floor_natCast]
  norm_num

theorem mkRow_interest (r p E : ℚ) (per : ℕ) (b : ℚ) :
    (mkRow r p E per b).interest = b * r := rfl

theorem mkRow_principal (r p E : ℚ) (per : ℕ) (b : ℚ) :
    (mkRow r p E per b).principal = p - b * r := rfl

theorem mkRow_extra (r p E : ℚ) (per : ℕ) (b : ℚ) :
    (mkRow r p E per b).extra_principal = min E (max (b - (p - b * r)) 0) := rfl

theorem mkRow_payment_def (r p E : ℚ) (per : ℕ) (b : ℚ) :
    (mkRow r p E per b).payment
      = b * r + min ((p - b * r) + min E (max (b - (p - b * r)) 0)) b := rfl

theorem mkRow_balance_def (r p E : ℚ) (per : ℕ) (b : ℚ) :
    (mkRow r p E per b).balance
      = max (b - min ((p - b * r) + min E (max (b - (p - b * r)) 0)) b) 0 := rfl

theorem mkRow_balance_nonneg (r p E : ℚ) (per : ℕ) (b : ℚ) :
    0 ≤ (mkRow r p E per b).balance := le_max_right _ _

/-- The emitted balance satisfies the row invariant claimed by the spec:
new balance = max(previous balance - (principal portion + extra applied), 0),
with the uncapped principal portion recorded in the row.  (The cap
`min (... ) balance` inside the code makes no difference under the outer
`max _ 0`.) -/
theorem mkRow_balance_alt (r p E : ℚ) (per : ℕ) (b : ℚ) :
    (mkRow r p E per b).balance
      = max (b - ((mkRow r p E per b).principal
          + (mkRow r p E per b).extra_principal)) 0 := by
  rw [mkRow_balance_def, mkRow_principal, mkRow_extra]
  rcases le_total ((p - b * r) + min E (max (b - (p - b * r)) 0)) b with h | h
  · rw [min_eq_left h]
  · rw [min_eq_right h]
    have h2 : b - ((p - b * r) + min E (max (b - (p - b * r)) 0)) ≤ 0 := by
      linarith
    rw [max_eq_right h2, sub_self, max_eq_right le_rfl]

/-- With a nonnegative extra-principal setting, one period is the affine
step `b ↦ max ((1+r)*b - (base_pmt + E), 0)`. -/
theorem mkRow_balance_step (r p E : ℚ) (per : ℕ) (b : ℚ) (hE : 0 ≤ E) :
    (mkRow r p E per b).balance = max ((1 + r) * b - (p + E)) 0 := by
  rw [mkRow_balance_def]
  rcases le_total (b - (p - b * r)) 0 with hbp | hbp
  · rw [max_eq_right hbp, min_eq_right hE]
    have hmin : min ((p - b * r) + 0) b = b := by
      rw [add_zero]
      apply min_eq_right
      linarith
    rw [hmin, sub_self, max_eq_right le_rfl]
    have : (1 + r) * b - (p + E) ≤ 0 := by nlinarith
    rw [max_eq_right this]
  · rw [max_eq_left hbp]
    rcases le_total E (b - (p - b * r)) with hE2 | hE2
    · rw [min_eq_left hE2]
      have hmin : min ((p - b * r) + E) b = (p - b * r) + E := by
        apply min_eq_left
        linarith
      rw [hmin]
      have h1 : b - ((p - b * r) + E) = (1 + r) * b - (p + E) := by ring
      rw [h1]
    · rw [min_eq_right hE2]
      have hmin : min ((p - b * r) + (b - (p - b * r))) b = b := by
        rw [add_sub_cancel]
        exact min_eq_left le_rfl
      rw [hmin, sub_self]
      have : (1 + r) * b - (p + E) ≤ 0 := by nlinarith
      rw [max_eq_right this, max_eq_right le_rfl]

/-- In a row that still leaves a positive balance, the payment splits exactly
as interest + scheduled principal + extra. -/
theorem mkRow_payment_of_pos (r p E : ℚ) (per : ℕ) (b : ℚ)
    (h : 0 < (mkRow r p E per b).balance) :
    (mkRow r p E per b).payment
      = (mkRow r p E per b).interest + ((mkRow r p E per b).principal
          + (mkRow r p E per b).extra_principal) := by
  rw [mkRow_payment_def, mkRow_interest, mkRow_principal, mkRow_extra]
  rw [mkRow_balance_def] at h
  rcases le_total ((p - b * r) + min E (max (b - (p - b * r)) 0)) b with hm | hm
  · rw [min_eq_left hm]
  · exfalso
    rw [min_eq_right hm, sub_self, max_eq_right le_rfl] at h
    exact lt_irrefl 0 h

/- ------------------------------------------------------------------ -/
/- Loop structure                                                     -/
/- ------------------------------------------------------------------ -/

theorem amortLoop_succ (r p E : ℚ) (fuel per : ℕ) (b : ℚ) :
    amortLoop r p E (fuel + 1) per b
      = if 0 < b then
          if (mkRow r p E (per + 1) b).balance ≤ 0 then [mkRow r p E (per + 1) b]
          else mkRow r p E (per + 1) b
            :: amortLoop r p E fuel (per + 1) (mkRow r p E (per + 1) b).balance
        else [] := rfl

theorem amortLoop_nonpos (r p E : ℚ) (fuel per : ℕ) (b : ℚ) (hb : ¬ 0 < b) :
    amortLoop r p E fuel per b = [] := by
  cases fuel with
  | zero => rfl
  | succ fuel => rw [amortLoop_succ, if_neg hb]

theorem amortLoop_length_le (r p E : ℚ) :
    ∀ (fuel per : ℕ) (b : ℚ), (amortLoop r p E fuel per b).length ≤ fuel := by
  intro fuel
  induction fuel with
  | zero => intro per b; simp [amortLoop]
  | succ fuel ih =>
    intro per b
    rw [amortLoop_succ]
    split
    · split
      · simp
      · simpa using ih (per + 1) (mkRow r p E (per + 1) b).balance
    · simp

/-- Master structural lemma: every emitted row is the loop body applied to
the balance entering it, that entering balance was strictly positive
(the loop guard), and the period indices are contiguous. -/
theorem amortLoop_spec (r p E : ℚ) :
    ∀ (fuel per : ℕ) (b : ℚ) (i : ℕ),
      i < (amortLoop r p E fuel per b).length →
      0 < prevBal b (amortLoop r p E fuel per b) i ∧
      rowAt (amortLoop r p E fuel per b) i
        = mkRow r p E (per + i + 1) (prevBal b (amortLoop r p E fuel per b) i) := by
  intro fuel
  induction fuel with
  | zero => intro per b i h; simp [amortLoop] at h
  | succ fuel ih =>
    intro per b i h
    rw [amortLoop_succ] at h ⊢
    by_cases hb : 0 < b
    · rw [if_pos hb] at h ⊢
      by_cases hstop : (mkRow r p E (per + 1) b).balance ≤ 0
      · rw [if_pos hstop] at h ⊢
        have hi : i = 0 := by simpa using Nat.lt_one_iff.mp (by simpa using h)
        subst hi
        exact ⟨by simpa [prevBal] using hb, by simp [prevBal, rowAt]⟩
      · rw [if_neg hstop] at h ⊢
        cases i with
        | zero =>
          exact ⟨by simpa [prevBal] using hb, by simp [prevBal, rowAt]⟩
        | succ i =>
          have hlen : i < (amortLoop r p E fuel (per + 1)
              (mkRow r p E (per + 1) b).balance).length := by
            simpa using h
          have hmain := ih (per + 1) (mkRow r p E (per + 1) b).balance i hlen
          have hprev : prevBal b
              (mkRow r p E (per + 1) b
                :: amortLoop r p E fuel (per + 1) (mkRow r p E (per + 1) b).balance)
              (i + 1)
              = prevBal (mkRow r p E (per + 1) b).balance
                  (amortLoop r p E fuel (per + 1) (mkRow r p E (per + 1) b).balance) i := by
            cases i with
            | zero => simp [prevBal, rowAt]
            | succ j => simp [prevBal, rowAt]
          constructor
          · rw [hprev]; exact hmain.1
          · have hrow : rowAt
                (mkRow r p E (per + 1) b
                  :: amortLoop r p E fuel (per + 1) (mkRow r p E (per + 1) b).balance)
                (i + 1)
                = rowAt (amortLoop r p E fuel (per + 1)
                    (mkRow r p E (per + 1) b).balance) i := by
              simp [rowAt]
            rw [hrow, hprev, hmain.2]
            ring_nf
    · rw [if_neg hb] at h
      simp at h

/-- The loop guard: a row is followed by another row only if its ending
balance is still strictly positive. -/
theorem amortLoop_guard (r p E : ℚ) (fuel per : ℕ) (b : ℚ) (i : ℕ)
    (h : i + 1 < (amortLoop r p E fuel per b).length) :
    0 < (rowAt (amortLoop r p E fuel per b) i).balance := by
  have hspec := amortLoop_spec r p E fuel per b (i + 1) h
  have hprev : prevBal b (amortLoop r p E fuel per b) (i + 1)
      = (rowAt (amortLoop r p E fuel per b) i).balance := by
    simp [prevBal]
  rw [hprev] at hspec
  exact hspec.1

/-- Termination shape: when the loop stops, either the last emitted row has
balance exactly 0, or the fuel (the `+ 600` safety cap) ran out. -/
theorem amortLoop_stop (r p E : ℚ) :
    ∀ (fuel per : ℕ) (b : ℚ),
      amortLoop r p E fuel per b ≠ [] →
      (rowAt (amortLoop r p E fuel per b)
          ((amortLoop r p E fuel per b).length - 1)).balance = 0 ∨
        (amortLoop r p E fuel per b).length = fuel := by
  intro fuel
  induction fuel with
  | zero => intro per b h; simp [amortLoop] at h
  | succ fuel ih =>
    intro per b h
    rw [amortLoop_succ] at h ⊢
    by_cases hb : 0 < b
    · rw [if_pos hb] at h ⊢
      by_cases hstop : (mkRow r p E (per + 1) b).balance ≤ 0
      · rw [if_pos hstop]
        left
        have h0 : (mkRow r p E (per + 1) b).balance = 0 :=
          le_antisymm hstop (mkRow_balance_nonneg r p E (per + 1) b)
        simpa [rowAt] using h0
      · rw [if_neg hstop] at h ⊢
        by_cases hrest : amortLoop r p E fuel (per + 1)
            (mkRow r p E (per + 1) b).balance = []
        · right
          rw [hrest]
          rw [hrest] at h
          simp only [List.length_cons, List.length_nil]
          have : fuel = 0 := by
            by_contra hf
            rcases Nat.exists_eq_succ_of_ne_zero hf with ⟨k, hk⟩
            rw [hk, amortLoop_succ, if_pos (lt_of_not_le hstop)] at hrest
            split at hrest <;> simp at hrest
          simp [this]
        · rcases ih (per + 1) (mkRow r p E (per + 1) b).balance hrest with h0 | hlen
          · left
            have hlenpos : 0 < (amortLoop r p E fuel (per + 1)
                (mkRow r p E (per + 1) b).balance).length :=
              List.length_pos.mpr hrest
            have hidx : (mkRow r p E (per + 1) b
                :: amortLoop r p E fuel (per + 1)
                  (mkRow r p E (per + 1) b).balance).length - 1
                = ((amortLoop r p E fuel (per + 1)
                    (mkRow r p E (per + 1) b).balance).length - 1) + 1 := by
              simp only [List.length_cons]
              omega
            rw [hidx]
            simpa [rowAt] using h0
          · right
            simp [hlen]
    · rw [if_neg hb] at h
      simp at h

/-- Exact run: if a sequence `B` starts at the loop's balance, follows the
affine step while positive, is positive for `m` periods and zero at period
`m ≤ fuel`, then the loop emits exactly the balances `B 1, ..., B m`. -/
theorem amortLoop_balances (r p E : ℚ) (hE : 0 ≤ E) :
    ∀ (m fuel per : ℕ) (B : ℕ → ℚ), m ≤ fuel →
      (∀ k, k < m → B (k + 1) = max ((1 + r) * B k - (p + E)) 0) →
      (∀ k, k < m → 0 < B k) → B m = 0 →
      (amortLoop r p E fuel per (B 0)).map Row.balance
        = (List.range m).map (fun i => B (i + 1)) := by
  intro m
  induction m with
  | zero =>
    intro fuel per B _ _ _ hBm
    rw [amortLoop_nonpos r p E fuel per (B 0) (by rw [hBm]; exact lt_irrefl 0)]
    simp
  | succ m ih =>
    intro fuel per B hm hstep hpos hBm
    rcases Nat.exists_eq_succ_of_ne_zero (Nat.pos_iff_ne_zero.mp
      (lt_of_lt_of_le (Nat.succ_pos m) hm)) with ⟨f, hf⟩
    subst hf
    have hb0 : 0 < B 0 := hpos 0 (Nat.succ_pos m)
    have hrow : (mkRow r p E (per + 1) (B 0)).balance = B 1 := by
      rw [mkRow_balance_step r p E (per + 1) (B 0) hE, (hstep 0 (Nat.succ_pos m)).symm]
    rw [amortLoop_succ, if_pos hb0]
    cases m with
    | zero =>
      have hstop : (mkRow r p E (per + 1) (B 0)).balance ≤ 0 := by
        rw [hrow, hBm]
      rw [if_pos hstop]
      simp [hrow, hBm, List.range_succ]
    | succ m =>
      have hpos1 : 0 < B 1 := hpos 1 (by omega)
      have hstop : ¬ (mkRow r p E (per + 1) (B 0)).balance ≤ 0 := by
        rw [hrow]; exact not_le.mpr hpos1
      rw [if_neg hstop]
      have htail := ih f (per + 1) (fun k => B (k + 1)) (by omega)
        (fun k hk => hstep (k + 1) (by omega))
        (fun k hk => hpos (k + 1) (by omega)) hBm
      simp only [Nat.zero_add] at htail
      rw [List.map_cons, hrow, htail]
      conv_rhs => rw [List.range_succ_eq_map, List.map_cons, List.map_map]
      norm_num [Function.comp]

/-- All interest entries ever emitted are nonnegative when the rate and the
starting balance are. -/
theorem amortLoop_interest_nonneg (r p E : ℚ) (hr : 0 ≤ r) :
    ∀ (fuel per : ℕ) (b : ℚ), 0 ≤ b →
      0 ≤ ((amortLoop r p E fuel per b).map Row.interest).sum := by
  intro fuel
  induction fuel with
  | zero => intro per b _; simp [amortLoop]
  | succ fuel ih =>
    intro per b hb
    rw [amortLoop_succ]
    by_cases h0 : 0 < b
    · rw [if_pos h0]
      have hint : 0 ≤ (mkRow r p E (per + 1) b).interest := by
        rw [mkRow_interest]; exact mul_nonneg hb hr
      split
      · simpa using hint
      · simp only [List.map_cons, List.sum_cons]
        have := ih (per + 1) (mkRow r p E (per + 1) b).balance
          (mkRow_balance_nonneg r p E (per + 1) b)
        linarith
    · rw [if_neg h0]; simp

/-- Comparison run: with the same base payment, a larger extra-principal
setting never yields more rows and never yields more total interest
(pointwise balance domination is the invariant). -/
theorem amortLoop_mono (r p e1 e2 : ℚ) (hr : 0 ≤ r) (he1 : 0 ≤ e1)
    (h12 : e1 ≤ e2) :
    ∀ (fuel per1 per2 : ℕ) (b1 b2 : ℚ), 0 ≤ b2 → b2 ≤ b1 →
      (amortLoop r p e2 fuel per2 b2).length
          ≤ (amortLoop r p e1 fuel per1 b1).length ∧
      ((amortLoop r p e2 fuel per2 b2).map Row.interest).sum
          ≤ ((amortLoop r p e1 fuel per1 b1).map Row.interest).sum := by
  have he2 : 0 ≤ e2 := le_trans he1 h12
  intro fuel
  induction fuel with
  | zero => intro per1 per2 b1 b2 _ _; simp [amortLoop]
  | succ fuel ih =>
    intro per1 per2 b1 b2 hb2 hb21
    by_cases h2 : 0 < b2
    · have h1 : 0 < b1 := lt_of_lt_of_le h2 hb21
      have hbal2 : (mkRow r p e2 (per2 + 1) b2).balance
          = max ((1 + r) * b2 - (p + e2)) 0 := mkRow_balance_step r p e2 _ b2 he2
      have hbal1 : (mkRow r p e1 (per1 + 1) b1).balance
          = max ((1 + r) * b1 - (p + e1)) 0 := mkRow_balance_step r p e1 _ b1 he1
      have hdom : (mkRow r p e2 (per2 + 1) b2).balance
          ≤ (mkRow r p e1 (per1 + 1) b1).balance := by
        rw [hbal1, hbal2]
        apply max_le_max _ le_rfl
        have : (1 + r) * b2 ≤ (1 + r) * b1 :=
          mul_le_mul_of_nonneg_left hb21 (by linarith)
        linarith
      have hint : (mkRow r p e2 (per2 + 1) b2).interest
          ≤ (mkRow r p e1 (per1 + 1) b1).interest := by
        rw [mkRow_interest, mkRow_interest]
        exact mul_le_mul_of_nonneg_right hb21 hr
      rw [amortLoop_succ, amortLoop_succ, if_pos h2, if_pos h1]
      by_cases hstop2 : (mkRow r p e2 (per2 + 1) b2).balance ≤ 0
      · rw [if_pos hstop2]
        by_cases hstop1 : (mkRow r p e1 (per1 + 1) b1).balance ≤ 0
        · rw [if_pos hstop1]
          exact ⟨le_rfl, by simpa using hint⟩
        · rw [if_neg hstop1]
          constructor
          · simp [Nat.succ_le_succ, Nat.zero_le]
          · simp only [List.map_cons, List.sum_cons, List.map_nil,
              List.sum_nil]
            have hrest : 0 ≤ ((amortLoop r p e1 fuel (per1 + 1)
                (mkRow r p e1 (per1 + 1) b1).balance).map Row.interest).sum :=
              amortLoop_interest_nonneg r p e1 hr fuel (per1 + 1) _
                (mkRow_balance_nonneg r p e1 _ b1)
            linarith
      · have hstop1 : ¬ (mkRow r p e1 (per1 + 1) b1).balance ≤ 0 := fun hc =>
          hstop2 (le_trans hdom hc)
        rw [if_neg hstop2, if_neg hstop1]
        have hrec := ih (per1 + 1) (per2 + 1)
          (mkRow r p e1 (per1 + 1) b1).balance
          (mkRow r p e2 (per2 + 1) b2).balance
          (mkRow_balance_nonneg r p e2 _ b2) hdom
        constructor
        · simpa [Nat.succ_le_succ_iff] using hrec.1
        · simp only [List.map_cons, List.sum_cons]
          linarith [hrec.2]
    · rw [amortLoop_nonpos r p e2 (fuel + 1) per2 b2 h2]
      constructor
      · simp
      · simp only [List.map_nil, List.sum_nil]
        exact amortLoop_interest_nonneg r p e1 hr (fuel + 1) per1 b1
          (le_trans hb2 hb21)

/-- Balances along a run never exceed the starting balance, and are
non-increasing row to row, as soon as the base payment plus extra covers the
interest on the starting balance. -/
theorem amortLoop_bal_le (r p E : ℚ) (hr : 0 ≤ r) (hE : 0 ≤ E)
    (fuel per : ℕ) (b : ℚ) (hb : 0 ≤ b) (hp : r * b ≤ p + E) :
    ∀ i, ∀ h : i < (amortLoop r p E fuel per b).length,
      (rowAt (amortLoop r p E fuel per b) i).balance
          ≤ prevBal b (amortLoop r p E fuel per b) i ∧
      (rowAt (amortLoop r p E fuel per b) i).balance ≤ b := by
  intro i
  induction i with
  | zero =>
    intro h
    have hspec := amortLoop_spec r p E fuel per b 0 h
    have hprev : prevBal b (amortLoop r p E fuel per b) 0 = b := by
      simp [prevBal]
    rw [hspec.2, hprev, mkRow_balance_step r p E _ b hE]
    constructor
    · apply max_le _ hb
      nlinarith
    · apply max_le _ hb
      nlinarith
  | succ i ihi =>
    intro h
    have hi : i < (amortLoop r p E fuel per b).length := Nat.lt_of_succ_lt h
    have hprev_le := (ihi hi).2
    have hspec := amortLoop_spec r p E fuel per b (i + 1) h
    have hprev : prevBal b (amortLoop r p E fuel per b) (i + 1)
        = (rowAt (amortLoop r p E fuel per b) i).balance := by
      simp [prevBal]
    rw [hspec.2, hprev, mkRow_balance_step r p E _ _ hE]
    have hbi : 0 ≤ (rowAt (amortLoop r p E fuel per b) i).balance := by
      rw [(amortLoop_spec r p E fuel per b i hi).2]
      exact mkRow_balance_nonneg _ _ _ _ _
    have hri : r * (rowAt (amortLoop r p E fuel per b) i).balance ≤ p + E :=
      le_trans (mul_le_mul_of_nonneg_left hprev_le hr) hp
    constructor
    · apply max_le _ hbi
      nlinarith
    · apply le_trans _ hprev_le
      apply max_le _ hbi
      nlinarith

/- ------------------------------------------------------------------ -/
/- Payment lemmas                                                     -/
/- ------------------------------------------------------------------ -/

/-- Straight-line branch: when the per-period rate is exactly zero (the only
case `math.isclose(r, 0.0)` accepts with default tolerances) and the period
count is nonzero, `payment` returns `principal / n`. -/
theorem payment_zero_rate (principal annual_rate_pct years periods_per_year : ℚ)
    (hn : years * periods_per_year ≠ 0)
    (hr : annual_rate_pct / 100 / periods_per_year = 0) :
    payment principal annual_rate_pct years periods_per_year
      = some (principal / (years * periods_per_year)) := by
  unfold payment
  rw [if_neg hn]
  have hc : isclose (annual_rate_pct / 100 / periods_per_year) 0 = true :=
    (isclose_zero_iff _).mpr hr
  simp only [hc, if_true]

/-- General branch shape: with a nonzero per-period rate and an
integer-valued period count, `payment` returns the closed annuity formula. -/
theorem payment_pos_rate (principal annual_rate_pct years periods_per_year : ℚ)
    (hn : years * periods_per_year ≠ 0)
    (hr : annual_rate_pct / 100 / periods_per_year ≠ 0)
    (hden : (years * periods_per_year).den = 1) :
    payment principal annual_rate_pct years periods_per_year
      = some ((annual_rate_pct / 100 / periods_per_year) * principal
          / (1 - (1 + annual_rate_pct / 100 / periods_per_year)
              ^ (-(years * periods_per_year).num))) := by
  unfold payment
  rw [if_neg hn]
  dsimp only
  have hc : isclose (annual_rate_pct / 100 / periods_per_year) 0 = false := by
    rw [← Bool.not_eq_true, isclose_zero_iff]
    exact hr
  rw [hc]
  simp only [Bool.false_eq_true, if_false]
  unfold qpowOpt
  have hdneg : (-(years * periods_per_year)).den = 1 := by
    rw [Rat.neg_den]
    exact hden
  rw [if_pos hdneg, Rat.neg_num]

/-- When the per-period rate is nonzero and the period count is not an
integer, the float power has no exact rational value and the embedding
returns `none`. -/
theorem payment_none_of_fracden (principal annual_rate_pct years
    periods_per_year : ℚ) (hn : years * periods_per_year ≠ 0)
    (hr : annual_rate_pct / 100 / periods_per_year ≠ 0)
    (hden : (years * periods_per_year).den ≠ 1) :
    payment principal annual_rate_pct years periods_per_year = none := by
  unfold payment
  rw [if_neg hn]
  dsimp only
  have hc : isclose (annual_rate_pct / 100 / periods_per_year) 0 = false := by
    rw [← Bool.not_eq_true, isclose_zero_iff]
    exact hr
  rw [hc]
  simp only [Bool.false_eq_true, if_false]
  unfold qpowOpt
  have hdneg : (-(years * periods_per_year)).den ≠ 1 := by
    rw [Rat.neg_den]
    exact hden
  rw [if_neg hdneg]

/-- The level payment covers at least the interest on the full principal:
`r * P ≤ p` whenever `payment` succeeds on a positive principal, nonnegative
rate and positive period count. -/
theorem payment_ge_interest (principal annual_rate_pct years periods_per_year p : ℚ)
    (hP : 0 < principal) (hppy : 0 < periods_per_year)
    (hrate : 0 ≤ annual_rate_pct) (hn : 0 < years * periods_per_year)
    (hp : payment principal annual_rate_pct years periods_per_year = some p) :
    (annual_rate_pct / 100 / periods_per_year) * principal ≤ p := by
  set r := annual_rate_pct / 100 / periods_per_year with hrdef
  have hr0 : 0 ≤ r := by
    rw [hrdef]
    positivity
  by_cases hz : r = 0
  · rw [payment_zero_rate principal annual_rate_pct years periods_per_year
      (ne_of_gt hn) (hrdef ▸ hz)] at hp
    have hp' : p = principal / (years * periods_per_year) :=
      ((Option.some.injEq _ _).mp hp).symm
    rw [hz, hp', zero_mul]
    positivity
  · have hrpos : 0 < r := lt_of_le_of_ne hr0 (Ne.symm hz)
    by_cases hden : (years * periods_per_year).den = 1
    · rw [payment_pos_rate principal annual_rate_pct years periods_per_year
        (ne_of_gt hn) (hrdef ▸ hz) hden] at hp
      have hp' : p = r * principal
          / (1 - (1 + r) ^ (-(years * periods_per_year).num)) :=
        ((Option.some.injEq _ _).mp hp).symm
      set n := years * periods_per_year with hndef
      have hnnum : (1 : ℤ) ≤ n.num := by
        have := Rat.num_pos.mpr hn
        omega
      have hc1 : (1 : ℚ) < 1 + r := by linarith
      have hpow : (1 : ℚ) < (1 + r) ^ n.num := by
        obtain ⟨m, hm⟩ : ∃ m : ℕ, n.num = (m : ℤ) :=
          ⟨n.num.toNat, (Int.toNat_of_nonneg (by omega)).symm⟩
        have hm1 : 1 ≤ m := by omega
        rw [hm, zpow_natCast]
        calc (1:ℚ) = 1 ^ m := (one_pow m).symm
        _ < (1 + r) ^ m := by
            apply pow_lt_pow_left hc1 (by norm_num)
            omega
      have hw : (1 + r) ^ (-n.num) = ((1 + r) ^ n.num)⁻¹ := zpow_neg (1 + r) n.num
      rw [hw] at hp'
      have hwlt : ((1 + r) ^ n.num)⁻¹ < 1 := by
        rw [inv_lt_one_iff₀]
        right
        exact hpow
      have hwpos : 0 < ((1 + r) ^ n.num)⁻¹ := by
        apply inv_pos.mpr
        linarith
      have hdenpos : 0 < 1 - ((1 + r) ^ n.num)⁻¹ := by linarith
      rw [hp', le_div_iff₀ hdenpos]
      nlinarith [mul_pos hrpos hP]
    · rw [payment_none_of_fracden principal annual_rate_pct years
        periods_per_year (ne_of_gt hn) (hrdef ▸ hz) hden] at hp
      exact absurd hp (by simp)

/- ------------------------------------------------------------------ -/
/- Schedule-level helpers                                             -/
/- ------------------------------------------------------------------ -/

theorem amortization_schedule_some (P rate years ppy E p : ℚ)
    (hp : payment P rate years ppy = some p) :
    amortization_schedule P rate years ppy E
      = some (toFrame (amortLoop (rate / 100 / ppy) p E
          ((pyRound (years * ppy) + 600).toNat) 0 P)) := by
  unfold amortization_schedule
  rw [hp]

/-- Unpack a successful schedule: the base payment succeeded and the rows are
the loop output. -/
theorem amortization_schedule_rows (P rate years ppy E : ℚ) (f : PDFrame)
    (hs : amortization_schedule P rate years ppy E = some f) :
    ∃ p, payment P rate years ppy = some p ∧
      f.rows = amortLoop (rate / 100 / ppy) p E
        ((pyRound (years * ppy) + 600).toNat) 0 P := by
  cases hpm : payment P rate years ppy with
  | none =>
    unfold amortization_schedule at hs
    rw [hpm] at hs
    cases hs
  | some p =>
    rw [amortization_schedule_some P rate years ppy E p hpm] at hs
    refine ⟨p, rfl, ?_⟩
    have hf : f = toFrame (amortLoop (rate / 100 / ppy) p E
        ((pyRound (years * ppy) + 600).toNat) 0 P) :=
      ((Option.some.injEq _ _).mp hs).symm
    rw [hf]
    rfl

theorem length_and_entry_of_map_balance (s : List Row) (g : ℕ → ℚ) (n : ℕ)
    (hmap : s.map Row.balance = (List.range n).map g) :
    s.length = n ∧ ∀ i, i < n → (rowAt s i).balance = g i := by
  have hlen : s.length = n := by
    have h := congrArg List.length hmap
    simpa using h
  refine ⟨hlen, fun i hi => ?_⟩
  have hi' : i < s.length := hlen ▸ hi
  have h1 : rowAt s i = s[i] := List.getD_eq_getElem s zeroRow hi'
  have him : i < (s.map Row.balance).length := by simpa using hi'
  have h2 : Row.balance s[i] = (s.map Row.balance)[i] :=
    (List.getElem_map Row.balance).symm
  rw [h1, h2, List.getElem_of_eq hmap, List.getElem_map, List.getElem_range]

/- ------------------------------------------------------------------ -/
/- Full-term payoff (claim C1)                                        -/
/- ------------------------------------------------------------------ -/

/-- C1 (amended): for every principal P > 0, rate ≥ 0 and term whose nominal
period count n = Y×12 is a positive integer, the zero-extra schedule has
exactly n rows and its final balance is exactly 0 (so certainly within $1). -/
theorem claim_C1_amended (P rate : ℚ) (n : ℕ) (f : PDFrame)
    (hP : 0 < P) (hrate : 0 ≤ rate) (hn : 0 < n)
    (hs : amortization_schedule P rate ((n : ℚ) / 12) 12 0 = some f) :
    f.rows.length = n ∧ (rowAt f.rows (n - 1)).balance = 0 := by
  obtain ⟨p, hpm, hrows⟩ := amortization_schedule_rows _ _ _ _ _ f hs
  have hny : ((n : ℚ) / 12) * 12 = (n : ℚ) := by field_simp
  have hnQ : ((n : ℚ)) ≠ 0 := Nat.cast_ne_zero.mpr (by omega)
  have hnQ0 : (0 : ℚ) < (n : ℚ) := by positivity
  have hfuel : (pyRound (((n : ℚ) / 12) * 12) + 600).toNat = n + 600 := by
    rw [hny, pyRound_natCast]
    omega
  rw [hfuel] at hrows
  set r := rate / 100 / 12 with hrdef
  have hr0 : 0 ≤ r := by rw [hrdef]; positivity
  by_cases hz : r = 0
  · have hp0 : payment P rate ((n : ℚ) / 12) 12
        = some (P / (((n : ℚ) / 12) * 12)) :=
      payment_zero_rate P rate ((n : ℚ) / 12) 12 (by rw [hny]; exact hnQ)
        (hrdef ▸ hz)
    have hpv : p = P / (n : ℚ) := by
      rw [hpm, hny] at hp0
      exact (Option.some.injEq _ _).mp hp0
    have hmap := amortLoop_balances r p 0 le_rfl n (n + 600) 0
      (fun k => P * ((n : ℚ) - k) / n) (by omega)
      (fun k hk => by
        show P * ((n : ℚ) - ((k + 1 : ℕ) : ℚ)) / n
          = max ((1 + r) * (P * ((n : ℚ) - (k : ℚ)) / n) - (p + 0)) 0
        have hkn : ((k : ℚ) + 1) ≤ (n : ℚ) := by exact_mod_cast hk
        have hnonneg : 0 ≤ P * ((n : ℚ) - ((k : ℚ) + 1)) / n := by
          apply div_nonneg _ hnQ0.le
          apply mul_nonneg hP.le
          linarith
        rw [hz, hpv]
        push_cast
        have hX : (1 + (0 : ℚ)) * (P * ((n : ℚ) - (k : ℚ)) / n) - (P / n + 0)
            = P * ((n : ℚ) - ((k : ℚ) + 1)) / n := by
          field_simp
          ring
        rw [hX, max_eq_left hnonneg])
      (fun k hk => by
        show 0 < P * ((n : ℚ) - (k : ℚ)) / n
        have hkn : (k : ℚ) < (n : ℚ) := by exact_mod_cast hk
        apply div_pos _ hnQ0
        apply mul_pos hP
        linarith)
      (by
        show P * ((n : ℚ) - ((n : ℕ) : ℚ)) / n = 0
        rw [sub_self, mul_zero, zero_div])
    have hB0 : (fun k => P * ((n : ℚ) - (k : ℕ)) / n) 0 = P := by
      show P * ((n : ℚ) - ((0 : ℕ) : ℚ)) / n = P
      push_cast
      field_simp
    rw [hB0] at hmap
    rw [← hrows] at hmap
    obtain ⟨hlen, hentry⟩ := length_and_entry_of_map_balance _ _ _ hmap
    refine ⟨hlen, ?_⟩
    rw [hentry (n - 1) (by omega)]
    show P * ((n : ℚ) - ((n - 1 + 1 : ℕ) : ℚ)) / n = 0
    have hns : n - 1 + 1 = n := by omega
    rw [hns, sub_self, mul_zero, zero_div]
  · have hrpos : 0 < r := lt_of_le_of_ne hr0 (Ne.symm hz)
    have hden : (((n : ℚ) / 12) * 12).den = 1 := by
      rw [hny]
      exact Rat.den_natCast n
    have hnum : (((n : ℚ) / 12) * 12).num = (n : ℤ) := by
      rw [hny]
      exact Rat.num_natCast n
    have hp0 := payment_pos_rate P rate ((n : ℚ) / 12) 12
      (by rw [hny]; exact hnQ) (hrdef ▸ hz) hden
    rw [hpm, hnum] at hp0
    set c := 1 + r with hcdef
    have hc1 : (1 : ℚ) < c := by rw [hcdef]; linarith
    have hcn1 : (1 : ℚ) < c ^ n := one_lt_pow hc1 (by omega)
    have hcnpos : (0 : ℚ) < c ^ n := by linarith
    have hD : (0 : ℚ) < c ^ n - 1 := by linarith
    have hzp : c ^ (-(n : ℤ)) = (c ^ n)⁻¹ := by
      rw [zpow_neg, zpow_natCast]
    have hpv : p = r * P * c ^ n / (c ^ n - 1) := by
      have h1 : (1 : ℚ) - (c ^ n)⁻¹ = (c ^ n - 1) / c ^ n := by
        field_simp
      have h2 := (Option.some.injEq _ _).mp hp0
      rw [hzp, h1] at h2
      rw [h2, div_div_eq_mul_div]
    have hrc : r = c - 1 := by rw [hcdef]; ring
    have hmap := amortLoop_balances r p 0 le_rfl n (n + 600) 0
      (fun k => P * (c ^ n - c ^ k) / (c ^ n - 1)) (by omega)
      (fun k hk => by
        show P * (c ^ n - c ^ (k + 1)) / (c ^ n - 1)
          = max ((1 + r) * (P * (c ^ n - c ^ k) / (c ^ n - 1)) - (p + 0)) 0
        have hkn : k + 1 ≤ n := hk
        have hple : c ^ (k + 1) ≤ c ^ n := pow_le_pow_right hc1.le hkn
        have hnonneg : 0 ≤ P * (c ^ n - c ^ (k + 1)) / (c ^ n - 1) := by
          apply div_nonneg _ hD.le
          apply mul_nonneg hP.le
          linarith
        have hX : (1 + r) * (P * (c ^ n - c ^ k) / (c ^ n - 1))
            - (r * P * c ^ n / (c ^ n - 1) + 0)
            = P * (c ^ n - c ^ (k + 1)) / (c ^ n - 1) := by
          rw [hrc]
          have h1c : 1 + (c - 1) = c := by ring
          rw [h1c]
          field_simp
          ring
        rw [hpv, hX, max_eq_left hnonneg])
      (fun k hk => by
        show 0 < P * (c ^ n - c ^ k) / (c ^ n - 1)
        have hklt : c ^ k < c ^ n := pow_lt_pow_right hc1 hk
        apply div_pos _ hD
        apply mul_pos hP
        linarith)
      (by
        show P * (c ^ n - c ^ (n : ℕ)) / (c ^ n - 1) = 0
        rw [sub_self, mul_zero, zero_div])
    have hB0 : (fun k => P * (c ^ n - c ^ k) / (c ^ n - 1)) 0 = P := by
      show P * (c ^ n - c ^ (0 : ℕ)) / (c ^ n - 1) = P
      rw [pow_zero, mul_div_assoc, div_self (ne_of_gt hD), mul_one]
    rw [hB0] at hmap
    rw [← hrows] at hmap
    obtain ⟨hlen, hentry⟩ := length_and_entry_of_map_balance _ _ _ hmap
    refine ⟨hlen, ?_⟩
    rw [hentry (n - 1) (by omega)]
    show P * (c ^ n - c ^ (n - 1 + 1)) / (c ^ n - 1) = 0
    have hns : n - 1 + 1 = n := by omega
    rw [hns, sub_self, mul_zero, zero_div]

/-- C1 (counterexample): at P = 1, rate = 0, Y = 13/64 years (a positive term
whose nominal period count 13/64 × 12 = 2.4375 is fractional), the schedule
has 3 rows while round(Y × 12) = 2, so the claimed "exactly round(Y × 12)
rows" fails as stated. -/
theorem claim_C1_counterexample :
    (amortization_schedule 1 0 (13 / 64) 12 0).map (fun f => f.rows.length)
        = some 3 ∧
      pyRound (13 / 64 * 12) = 2 := by
  constructor
  · have hp : payment 1 0 (13 / 64) 12 = some (16 / 39) := by
      norm_num [payment, isclose, relTol, absTol]
    rw [amortization_schedule, hp]
    dsimp only
    have hfuel : (pyRound ((39 : ℚ) / 16) + 600).toNat = 602 := by
      have h : pyRound ((39 : ℚ) / 16) = 2 := by norm_num [pyRound]
      rw [h]
      rfl
    have h1 : ((13 : ℚ) / 64 * 12) = 39 / 16 := by norm_num
    rw [h1, hfuel]
    rw [show (602 : ℕ) = 601 + 1 from rfl, amortLoop]
    norm_num [mkRow]
    rw [show (601 : ℕ) = 600 + 1 from rfl, amortLoop]
    norm_num [mkRow]
    rw [show (600 : ℕ) = 599 + 1 from rfl, amortLoop]
    norm_num [mkRow, toFrame]
  · norm_num [pyRound]

/-- C1 (witness): the amended theorem applied at P = 1, rate = 0, n = 1. -/
theorem claim_C1_witness :
    (0 : ℚ) < 1 ∧ (0 : ℚ) ≤ 0 ∧ (0 : ℕ) < 1 ∧
    amortization_schedule 1 0 (((1 : ℕ) : ℚ) / 12) 12 0
        = some ⟨[⟨1, 0, 1, 0, 1, 0⟩], true⟩ ∧
    ((⟨[⟨1, 0, 1, 0, 1, 0⟩], true⟩ : PDFrame).rows.length = 1 ∧
      (rowAt (⟨[⟨1, 0, 1, 0, 1, 0⟩], true⟩ : PDFrame).rows (1 - 1)).balance
        = 0) := by
  have hsched : amortization_schedule 1 0 (((1 : ℕ) : ℚ) / 12) 12 0
      = some ⟨[⟨1, 0, 1, 0, 1, 0⟩], true⟩ := by
    have hp : payment 1 0 (((1 : ℕ) : ℚ) / 12) 12 = some 1 := by
      norm_num [payment, isclose, relTol, absTol]
    rw [amortization_schedule, hp]
    dsimp only
    have h1 : (((1 : ℕ) : ℚ) / 12 * 12) = 1 := by norm_num
    have hfuel : (pyRound (1 : ℚ) + 600).toNat = 601 := by
      have h : pyRound (1 : ℚ) = 1 := by norm_num [pyRound]
      rw [h]
      rfl
    rw [h1, hfuel]
    rw [show (601 : ℕ) = 600 + 1 from rfl, amortLoop]
    norm_num [mkRow, toFrame]
  exact ⟨by norm_num, le_rfl, by norm_num, hsched,
    claim_C1_amended 1 0 1 _ (by norm_num) le_rfl (by norm_num) hsched⟩

/- ------------------------------------------------------------------ -/
/- Row invariants (claims C2, C10) and the cap (claim C4)             -/
/- ------------------------------------------------------------------ -/

/-- C2: in every schedule produced with principal > 0, rate ≥ 0, years > 0
and extra ≥ 0: each row's ending balance is
max(previous balance − (principal portion + extra applied), 0); the balance
column is non-increasing; and a row with balance 0 can only be the last. -/
theorem claim_C2 (P rate years E : ℚ) (f : PDFrame)
    (hP : 0 < P) (hrate : 0 ≤ rate) (hy : 0 < years) (hE : 0 ≤ E)
    (hs : amortization_schedule P rate years 12 E = some f) :
    (∀ i, i < f.rows.length →
        (rowAt f.rows i).balance
          = max (prevBal P f.rows i
              - ((rowAt f.rows i).principal
                  + (rowAt f.rows i).extra_principal)) 0) ∧
    (∀ i, i + 1 < f.rows.length →
        (rowAt f.rows (i + 1)).balance ≤ (rowAt f.rows i).balance) ∧
    (∀ i, i < f.rows.length → (rowAt f.rows i).balance = 0 →
        i = f.rows.length - 1) := by
  obtain ⟨p, hpm, hrows⟩ := amortization_schedule_rows _ _ _ _ _ f hs
  have hr0 : 0 ≤ rate / 100 / 12 := by positivity
  have hn : 0 < years * 12 := by positivity
  have hpge := payment_ge_interest P rate years 12 p hP (by norm_num) hrate hn hpm
  have hpE : rate / 100 / 12 * P ≤ p + E := by linarith
  refine ⟨?_, ?_, ?_⟩
  · intro i hi
    rw [hrows] at hi ⊢
    have hspec := amortLoop_spec (rate / 100 / 12) p E _ 0 P i hi
    rw [hspec.2]
    exact mkRow_balance_alt _ _ _ _ _
  · intro i hi
    rw [hrows] at hi ⊢
    have hble := amortLoop_bal_le (rate / 100 / 12) p E hr0 hE _ 0 P hP.le hpE
      (i + 1) hi
    have hprev : prevBal P (amortLoop (rate / 100 / 12) p E
        ((pyRound (years * 12) + 600).toNat) 0 P) (i + 1)
        = (rowAt (amortLoop (rate / 100 / 12) p E
            ((pyRound (years * 12) + 600).toNat) 0 P) i).balance := by
      simp [prevBal]
    rw [← hprev]
    exact hble.1
  · intro i hi hbal
    rw [hrows] at hi hbal
    by_contra hne
    have hilt : i + 1 < (amortLoop (rate / 100 / 12) p E
        ((pyRound (years * 12) + 600).toNat) 0 P).length := by
      rw [hrows] at hne
      omega
    have := amortLoop_guard (rate / 100 / 12) p E _ 0 P i hilt
    rw [hbal] at this
    exact lt_irrefl 0 this

/-- C2 (witness): the invariants applied at P = 1, rate = 0, years = 1/12,
extra = 0, whose schedule is a single row. -/
theorem claim_C2_witness :
    (0 : ℚ) < 1 ∧ (0 : ℚ) ≤ 0 ∧ (0 : ℚ) < 1 / 12 ∧ (0 : ℚ) ≤ 0 ∧
    amortization_schedule 1 0 (1 / 12) 12 0
        = some ⟨[⟨1, 0, 1, 0, 1, 0⟩], true⟩ ∧
    ((∀ i, i < (⟨[⟨1, 0, 1, 0, 1, 0⟩], true⟩ : PDFrame).rows.length →
        (rowAt (⟨[⟨1, 0, 1, 0, 1, 0⟩], true⟩ : PDFrame).rows i).balance
          = max (prevBal 1 (⟨[⟨1, 0, 1, 0, 1, 0⟩], true⟩ : PDFrame).rows i
              - ((rowAt (⟨[⟨1, 0, 1, 0, 1, 0⟩], true⟩ : PDFrame).rows i).principal
                  + (rowAt (⟨[⟨1, 0, 1, 0, 1, 0⟩], true⟩ :
                      PDFrame).rows i).extra_principal)) 0) ∧
      (∀ i, i + 1 < (⟨[⟨1, 0, 1, 0, 1, 0⟩], true⟩ : PDFrame).rows.length →
          (rowAt (⟨[⟨1, 0, 1, 0, 1, 0⟩], true⟩ : PDFrame).rows (i + 1)).balance
            ≤ (rowAt (⟨[⟨1, 0, 1, 0, 1, 0⟩], true⟩ : PDFrame).rows i).balance) ∧
      (∀ i, i < (⟨[⟨1, 0, 1, 0, 1, 0⟩], true⟩ : PDFrame).rows.length →
          (rowAt (⟨[⟨1, 0, 1, 0, 1, 0⟩], true⟩ : PDFrame).rows i).balance = 0 →
          i = (⟨[⟨1, 0, 1, 0, 1, 0⟩], true⟩ : PDFrame).rows.length - 1)) := by
  have hsched : amortization_schedule 1 0 (1 / 12) 12 0
      = some ⟨[⟨1, 0, 1, 0, 1, 0⟩], true⟩ := by
    have hp : payment 1 0 (1 / 12) 12 = some 1 := by
      norm_num [payment, isclose, relTol, absTol]
    rw [amortization_schedule, hp]
    dsimp only
    have h1 : ((1 : ℚ) / 12 * 12) = 1 := by norm_num
    have hfuel : (pyRound (1 : ℚ) + 600).toNat = 601 := by
      have h : pyRound (1 : ℚ) = 1 := by norm_num [pyRound]
      rw [h]
      rfl
    rw [h1, hfuel]
    rw [show (601 : ℕ) = 600 + 1 from rfl, amortLoop]
    norm_num [mkRow, toFrame]
  exact ⟨by norm_num, le_rfl, by norm_num, le_rfl, hsched,
    claim_C2 1 0 (1 / 12) 0 _ (by norm_num) le_rfl (by norm_num) le_rfl hsched⟩

/-- C4: every produced schedule has at most round(years × ppy) + 600 rows,
and it stops either because the last balance is exactly 0 or because the
period index reached that cap. -/
theorem claim_C4 (P rate years ppy E : ℚ) (f : PDFrame)
    (hppy : 0 < ppy) (hE : 0 ≤ E)
    (hs : amortization_schedule P rate years ppy E = some f) :
    f.rows.length ≤ (pyRound (years * ppy) + 600).toNat ∧
    (f.rows ≠ [] →
      (rowAt f.rows (f.rows.length - 1)).balance = 0 ∨
        f.rows.length = (pyRound (years * ppy) + 600).toNat) := by
  obtain ⟨p, hpm, hrows⟩ := amortization_schedule_rows _ _ _ _ _ f hs
  rw [hrows]
  exact ⟨amortLoop_length_le _ _ _ _ _ _, amortLoop_stop _ _ _ _ _ _⟩

/-- C4 (witness): the cap bound applied at P = 1, rate = 0, years = 1/12. -/
theorem claim_C4_witness :
    (0 : ℚ) < 12 ∧ (0 : ℚ) ≤ 0 ∧
    amortization_schedule 1 0 (1 / 12) 12 0
        = some ⟨[⟨1, 0, 1, 0, 1, 0⟩], true⟩ ∧
    ((⟨[⟨1, 0, 1, 0, 1, 0⟩], true⟩ : PDFrame).rows.length
        ≤ (pyRound ((1 / 12 : ℚ) * 12) + 600).toNat ∧
      ((⟨[⟨1, 0, 1, 0, 1, 0⟩], true⟩ : PDFrame).rows ≠ [] →
        (rowAt (⟨[⟨1, 0, 1, 0, 1, 0⟩], true⟩ : PDFrame).rows
            ((⟨[⟨1, 0, 1, 0, 1, 0⟩], true⟩ : PDFrame).rows.length - 1)).balance
            = 0 ∨
          (⟨[⟨1, 0, 1, 0, 1, 0⟩], true⟩ : PDFrame).rows.length
            = (pyRound ((1 / 12 : ℚ) * 12) + 600).toNat)) := by
  have hsched : amortization_schedule 1 0 (1 / 12) 12 0
      = some ⟨[⟨1, 0, 1, 0, 1, 0⟩], true⟩ := by
    have hp : payment 1 0 (1 / 12) 12 = some 1 := by
      norm_num [payment, isclose, relTol, absTol]
    rw [amortization_schedule, hp]
    dsimp only
    have h1 : ((1 : ℚ) / 12 * 12) = 1 := by norm_num
    have hfuel : (pyRound (1 : ℚ) + 600).toNat = 601 := by
      have h : pyRound (1 : ℚ) = 1 := by norm_num [pyRound]
      rw [h]
      rfl
    rw [h1, hfuel]
    rw [show (601 : ℕ) = 600 + 1 from rfl, amortLoop]
    norm_num [mkRow, toFrame]
  exact ⟨by norm_num, le_rfl, hsched,
    claim_C4 1 0 (1 / 12) 12 0 _ (by norm_num) le_rfl hsched⟩

/- ------------------------------------------------------------------ -/
/- Extra-principal monotonicity (claim C3)                            -/
/- ------------------------------------------------------------------ -/

/-- C3: increasing the extra principal per period never increases the total
interest paid (sum of the interest column) and never increases the number of
rows to payoff. -/
theorem claim_C3 (P rate years e1 e2 : ℚ) (f1 f2 : PDFrame)
    (hP : 0 < P) (hrate : 0 ≤ rate) (hy : 0 < years)
    (he1 : 0 ≤ e1) (h12 : e1 ≤ e2)
    (hs1 : amortization_schedule P rate years 12 e1 = some f1)
    (hs2 : amortization_schedule P rate years 12 e2 = some f2) :
    (f2.rows.map Row.interest).sum ≤ (f1.rows.map Row.interest).sum ∧
    f2.rows.length ≤ f1.rows.length := by
  obtain ⟨p1, hpm1, hrows1⟩ := amortization_schedule_rows _ _ _ _ _ f1 hs1
  obtain ⟨p2, hpm2, hrows2⟩ := amortization_schedule_rows _ _ _ _ _ f2 hs2
  have hpp : p1 = p2 := by
    rw [hpm1] at hpm2
    exact (Option.some.injEq _ _).mp hpm2
  subst hpp
  have hr0 : 0 ≤ rate / 100 / 12 := by positivity
  have hmono := amortLoop_mono (rate / 100 / 12) p1 e1 e2 hr0 he1 h12
    ((pyRound (years * 12) + 600).toNat) 0 0 P P hP.le le_rfl
  rw [hrows1, hrows2]
  exact ⟨hmono.2, hmono.1⟩

/-- C3 (witness): applied at P = 1, rate = 0, years = 1/12, extras 0 ≤ 1
(both schedules are the same single row, so both inequalities are ties). -/
theorem claim_C3_witness :
    (0 : ℚ) < 1 ∧ (0 : ℚ) ≤ 0 ∧ (0 : ℚ) < 1 / 12 ∧ (0 : ℚ) ≤ 0 ∧
    (0 : ℚ) ≤ 1 ∧
    amortization_schedule 1 0 (1 / 12) 12 0
        = some ⟨[⟨1, 0, 1, 0, 1, 0⟩], true⟩ ∧
    amortization_schedule 1 0 (1 / 12) 12 1
        = some ⟨[⟨1, 0, 1, 0, 1, 0⟩], true⟩ ∧
    (((⟨[⟨1, 0, 1, 0, 1, 0⟩], true⟩ : PDFrame).rows.map Row.interest).sum
        ≤ ((⟨[⟨1, 0, 1, 0, 1, 0⟩], true⟩ : PDFrame).rows.map Row.interest).sum ∧
      (⟨[⟨1, 0, 1, 0, 1, 0⟩], true⟩ : PDFrame).rows.length
        ≤ (⟨[⟨1, 0, 1, 0, 1, 0⟩], true⟩ : PDFrame).rows.length) := by
  have hp : payment 1 0 (1 / 12) 12 = some 1 := by
    norm_num [payment, isclose, relTol, absTol]
  have h1 : ((1 : ℚ) / 12 * 12) = 1 := by norm_num
  have hfuel : (pyRound (1 : ℚ) + 600).toNat = 601 := by
    have h : pyRound (1 : ℚ) = 1 := by norm_num [pyRound]
    rw [h]
    rfl
  have hsched0 : amortization_schedule 1 0 (1 / 12) 12 0
      = some ⟨[⟨1, 0, 1, 0, 1, 0⟩], true⟩ := by
    rw [amortization_schedule, hp]
    dsimp only
    rw [h1, hfuel]
    rw [show (601 : ℕ) = 600 + 1 from rfl, amortLoop]
    norm_num [mkRow, toFrame]
  have hsched1 : amortization_schedule 1 0 (1 / 12) 12 1
      = some ⟨[⟨1, 0, 1, 0, 1, 0⟩], true⟩ := by
    rw [amortization_schedule, hp]
    dsimp only
    rw [h1, hfuel]
    rw [show (601 : ℕ) = 600 + 1 from rfl, amortLoop]
    norm_num [mkRow, toFrame]
  exact ⟨by norm_num, le_rfl, by norm_num, le_rfl, by norm_num, hsched0, hsched1,
    claim_C3 1 0 (1 / 12) 0 1 _ _ (by norm_num) le_rfl (by norm_num) le_rfl
      (by norm_num) hsched0 hsched1⟩

/- ------------------------------------------------------------------ -/
/- Row payment identity (claim C10)                                   -/
/- ------------------------------------------------------------------ -/

/-- C10: in every row, payment = interest + min(recorded principal + extra,
previous balance), and the recorded principal is always the uncapped
base payment minus interest; in every row except possibly the last the min is
inactive, so payment = interest + principal + extra exactly; and the final
row's recorded principal can strictly exceed the principal actually paid
(payment − interest), witnessed at P = 1, rate = 0, years = 1/8. -/
theorem claim_C10 :
    (∀ (P rate years ppy E : ℚ) (f : PDFrame) (p : ℚ),
      amortization_schedule P rate years ppy E = some f →
      payment P rate years ppy = some p →
      (∀ i, i < f.rows.length →
        (rowAt f.rows i).payment
          = (rowAt f.rows i).interest
            + min ((rowAt f.rows i).principal
                + (rowAt f.rows i).extra_principal) (prevBal P f.rows i) ∧
        (rowAt f.rows i).principal = p - (rowAt f.rows i).interest) ∧
      (∀ i, i + 1 < f.rows.length →
        (rowAt f.rows i).payment
          = (rowAt f.rows i).interest + (rowAt f.rows i).principal
            + (rowAt f.rows i).extra_principal)) ∧
    (amortization_schedule 1 0 (1 / 8) 12 0
        = some ⟨[⟨1, 0, 2 / 3, 0, 2 / 3, 1 / 3⟩, ⟨2, 0, 2 / 3, 0, 1 / 3, 0⟩],
            true⟩ ∧
      (rowAt [⟨1, 0, 2 / 3, 0, 2 / 3, 1 / 3⟩, ⟨2, 0, 2 / 3, 0, 1 / 3, 0⟩]
            1).payment
          - (rowAt [⟨1, 0, 2 / 3, 0, 2 / 3, 1 / 3⟩, ⟨2, 0, 2 / 3, 0, 1 / 3, 0⟩]
              1).interest
        < (rowAt [⟨1, 0, 2 / 3, 0, 2 / 3, 1 / 3⟩, ⟨2, 0, 2 / 3, 0, 1 / 3, 0⟩]
            1).principal) := by
  constructor
  · intro P rate years ppy E f p hs hpm
    obtain ⟨p', hpm', hrows⟩ := amortization_schedule_rows _ _ _ _ _ f hs
    have hpp : p' = p := by
      rw [hpm] at hpm'
      exact ((Option.some.injEq _ _).mp hpm').symm
    subst hpp
    constructor
    · intro i hi
      rw [hrows] at hi ⊢
      have hspec := amortLoop_spec (rate / 100 / ppy) p' E _ 0 P i hi
      rw [hspec.2]
      exact ⟨rfl, rfl⟩
    · intro i hi
      rw [hrows] at hi ⊢
      have hii : i < (amortLoop (rate / 100 / ppy) p' E
          ((pyRound (years * ppy) + 600).toNat) 0 P).length :=
        Nat.lt_of_succ_lt hi
      have hspec := amortLoop_spec (rate / 100 / ppy) p' E _ 0 P i hii
      have hpos := amortLoop_guard (rate / 100 / ppy) p' E _ 0 P i hi
      rw [hspec.2] at hpos ⊢
      rw [mkRow_payment_of_pos _ _ _ _ _ hpos]
      ring
  · constructor
    · have hp : payment 1 0 (1 / 8) 12 = some (2 / 3) := by
        norm_num [payment, isclose, relTol, absTol]
      rw [amortization_schedule, hp]
      dsimp only
      have h1 : ((1 : ℚ) / 8 * 12) = 3 / 2 := by norm_num
      have hfuel : (pyRound ((3 : ℚ) / 2) + 600).toNat = 602 := by
        have h : pyRound ((3 : ℚ) / 2) = 2 := by
          norm_num [pyRound, Int.even_iff]
        rw [h]
        rfl
      rw [h1, hfuel]
      rw [show (602 : ℕ) = 601 + 1 from rfl, amortLoop]
      norm_num [mkRow]
      rw [show (601 : ℕ) = 600 + 1 from rfl, amortLoop]
      norm_num [mkRow, toFrame]
    · show (1 : ℚ) / 3 - 0 < 2 / 3
      norm_num

/-- C10 (witness): the universal part applied at P = 1, rate = 0,
years = 1/12, extra = 0. -/
theorem claim_C10_witness :
    amortization_schedule 1 0 (1 / 12) 12 0
        = some ⟨[⟨1, 0, 1, 0, 1, 0⟩], true⟩ ∧
    payment 1 0 (1 / 12) 12 = some 1 ∧
    ((∀ i, i < (⟨[⟨1, 0, 1, 0, 1, 0⟩], true⟩ : PDFrame).rows.length →
        (rowAt (⟨[⟨1, 0, 1, 0, 1, 0⟩], true⟩ : PDFrame).rows i).payment
          = (rowAt (⟨[⟨1, 0, 1, 0, 1, 0⟩], true⟩ : PDFrame).rows i).interest
            + min ((rowAt (⟨[⟨1, 0, 1, 0, 1, 0⟩], true⟩ :
                  PDFrame).rows i).principal
                + (rowAt (⟨[⟨1, 0, 1, 0, 1, 0⟩], true⟩ :
                    PDFrame).rows i).extra_principal)
                (prevBal 1 (⟨[⟨1, 0, 1, 0, 1, 0⟩], true⟩ : PDFrame).rows i) ∧
        (rowAt (⟨[⟨1, 0, 1, 0, 1, 0⟩], true⟩ : PDFrame).rows i).principal
          = 1 - (rowAt (⟨[⟨1, 0, 1, 0, 1, 0⟩], true⟩ :
              PDFrame).rows i).interest) ∧
      (∀ i, i + 1 < (⟨[⟨1, 0, 1, 0, 1, 0⟩], true⟩ : PDFrame).rows.length →
        (rowAt (⟨[⟨1, 0, 1, 0, 1, 0⟩], true⟩ : PDFrame).rows i).payment
          = (rowAt (⟨[⟨1, 0, 1, 0, 1, 0⟩], true⟩ : PDFrame).rows i).interest
            + (rowAt (⟨[⟨1, 0, 1, 0, 1, 0⟩], true⟩ : PDFrame).rows i).principal
            + (rowAt (⟨[⟨1, 0, 1, 0, 1, 0⟩], true⟩ :
                PDFrame).rows i).extra_principal)) := by
  have hp : payment 1 0 (1 / 12) 12 = some 1 := by
    norm_num [payment, isclose, relTol, absTol]
  have hsched : amortization_schedule 1 0 (1 / 12) 12 0
      = some ⟨[⟨1, 0, 1, 0, 1, 0⟩], true⟩ := by
    rw [amortization_schedule, hp]
    dsimp only
    have h1 : ((1 : ℚ) / 12 * 12) = 1 := by norm_num
    have hfuel : (pyRound (1 : ℚ) + 600).toNat = 601 := by
      have h : pyRound (1 : ℚ) = 1 := by norm_num [pyRound]
      rw [h]
      rfl
    rw [h1, hfuel]
    rw [show (601 : ℕ) = 600 + 1 from rfl, amortLoop]
    norm_num [mkRow, toFrame]
  exact ⟨hsched, hp, claim_C10.1 1 0 (1 / 12) 12 0 _ 1 hsched hp⟩

/- ------------------------------------------------------------------ -/
/- Zero-rate branch of payment (claim C5)                             -/
/- ------------------------------------------------------------------ -/

/-- C5 (counterexample): a strictly positive per-period rate r = 1e-9 (the
claimed tolerance) does NOT take the straight-line branch: math.isclose with
its default abs_tol = 0.0 only accepts r exactly 0, and payment returns the
closed-form value 1 + 1e-9 instead of principal / n = 1. -/
theorem claim_C5_counterexample :
    (0 : ℚ) < (1 / 10 ^ 7) / 100 / 1 ∧
    (1 / 10 ^ 7) / 100 / 1 ≤ 1 / 10 ^ 9 ∧
    payment 1 (1 / 10 ^ 7) 1 1 = some (1 + 1 / 10 ^ 9) ∧
    (1 : ℚ) + 1 / 10 ^ 9 ≠ 1 / (1 * 1) := by
  refine ⟨by norm_num, by norm_num, ?_, by norm_num⟩
  norm_num [payment, isclose, relTol, absTol, qpowOpt]

/-- C5 (amended): `payment` returns `principal / n` exactly when the
per-period rate `annual_rate_pct/100/periods_per_year` is exactly 0 (the only
value accepted by `math.isclose(r, 0.0)` with default tolerances) and
n = years × periods_per_year is nonzero; in particular
payment(P, 0, Y) = P / (Y × 12). -/
theorem claim_C5_amended (principal annual_rate_pct years periods_per_year : ℚ)
    (hn : years * periods_per_year ≠ 0)
    (hr : annual_rate_pct / 100 / periods_per_year = 0) :
    payment principal annual_rate_pct years periods_per_year
      = some (principal / (years * periods_per_year)) :=
  payment_zero_rate principal annual_rate_pct years periods_per_year hn hr

/-- C5 (witness): the amended theorem applied at the spec's example
payment(P, 0, Y) = P / (Y × 12) with P = 300000, Y = 30. -/
theorem claim_C5_witness :
    ((30 : ℚ) * 12 ≠ 0) ∧ ((0 : ℚ) / 100 / 12 = 0) ∧
    payment 300000 0 30 12 = some (300000 / (30 * 12)) :=
  ⟨by norm_num, by norm_num,
    claim_C5_amended 300000 0 30 12 (by norm_num) (by norm_num)⟩

/- ------------------------------------------------------------------ -/
/- Savings stream horizon handling (claims C6, C7)                    -/
/- ------------------------------------------------------------------ -/

/-- C7: `amortization_schedule` returns an empty, column-less DataFrame for
principal ≤ 0, and `total_interest_from_schedule` on that frame raises
KeyError (selecting the missing "interest" column of `pd.DataFrame([])`)
instead of returning 0. -/
theorem claim_C7 :
    amortization_schedule 0 0 30 12 0 = some ⟨[], false⟩ ∧
    total_interest_from_schedule ⟨[], false⟩ = none := by
  constructor
  · have hp : payment 0 0 30 12 = some 0 := by
      norm_num [payment, isclose, relTol, absTol]
    rw [amortization_schedule, hp]
    dsimp only
    rw [amortLoop_nonpos _ _ _ _ _ _ (by norm_num)]
    rfl
  · rfl

/-- C6 (counterexample): a negative horizon is not rejected: with two 2-row
schedules and months = −1, `build_savings_stream` silently returns the
1-entry stream [0] (pandas `head(-1)` drops the last row of each schedule). -/
theorem claim_C6_counterexample :
    build_savings_stream ⟨[zeroRow, zeroRow], true⟩ ⟨[zeroRow, zeroRow], true⟩
        (-1) 0 0 = some [0] := by
  norm_num [build_savings_stream, pdHead, padToMonths, npSub, zeroRow]

/-- C6 (amended): `build_savings_stream` performs no validation of `months`.
For months = 0 it returns the empty stream (as claimed); but for months < 0
it does not fail with a precondition error: it silently returns the payment
difference over all but the last |months| rows (shown here for equal-length
schedules, where no broadcasting error can occur either). -/
theorem claim_C6_amended :
    (∀ (cur newS : PDFrame) (cp np : ℚ), cur.hasCols = true →
      newS.hasCols = true → build_savings_stream cur newS 0 cp np = some []) ∧
    (∀ (cur newS : PDFrame) (m : ℤ) (cp np : ℚ), m < 0 →
      cur.hasCols = true → newS.hasCols = true →
      cur.rows.length = newS.rows.length →
      build_savings_stream cur newS m cp np
        = some (List.zipWith (fun a b => (a.payment + cp) - (b.payment + np))
            (pdHead cur.rows m) (pdHead newS.rows m))) := by
  constructor
  · intro cur newS cp np h1 h2
    unfold build_savings_stream
    rw [h1, h2]
    simp [pdHead, padToMonths, npSub]
  · intro cur newS m cp np hm h1 h2 hlen
    unfold build_savings_stream
    rw [h1, h2]
    simp only [Bool.and_self, if_true]
    have hhead : ∀ xs : List Row, pdHead xs m = xs.take ((xs.length : ℤ) + m).toNat := by
      intro xs
      unfold pdHead
      rw [if_neg (by omega)]
    have hpad : ∀ t : List Row, padToMonths t m = t := by
      intro t
      unfold padToMonths
      rw [if_neg (by omega)]
    rw [hhead, hhead, hpad, hpad]
    have hlen2 : ((cur.rows.take ((cur.rows.length : ℤ) + m).toNat).map
        (fun row => row.payment + cp)).length
        = ((newS.rows.take ((newS.rows.length : ℤ) + m).toNat).map
            (fun row => row.payment + np)).length := by
      simp [hlen]
    unfold npSub
    rw [if_pos hlen2]
    rw [List.zipWith_map_left, List.zipWith_map_right]

/-- C6 (witness): the amended behaviour applied at concrete one-row
schedules, for months = 0 and months = −1. -/
theorem claim_C6_witness :
    (⟨[zeroRow], true⟩ : PDFrame).hasCols = true ∧ (-1 : ℤ) < 0 ∧
    build_savings_stream ⟨[zeroRow], true⟩ ⟨[zeroRow], true⟩ 0 5 7 = some [] ∧
    build_savings_stream ⟨[zeroRow], true⟩ ⟨[zeroRow], true⟩ (-1) 5 7
      = some (List.zipWith (fun a b => (a.payment + 5) - (b.payment + 7))
          (pdHead [zeroRow] (-1)) (pdHead [zeroRow] (-1))) :=
  ⟨rfl, by norm_num,
    claim_C6_amended.1 ⟨[zeroRow], true⟩ ⟨[zeroRow], true⟩ 5 7 rfl rfl,
    claim_C6_amended.2 ⟨[zeroRow], true⟩ ⟨[zeroRow], true⟩ (-1) 5 7
      (by norm_num) rfl rfl rfl⟩

/- ------------------------------------------------------------------ -/
/- Savings stream for a nonnegative horizon (claims C8, C9)           -/
/- ------------------------------------------------------------------ -/

theorem take_pad_eq_range (x : ℚ) : ∀ (k : ℕ) (q : List ℚ),
    q.take k ++ List.replicate (k - (q.take k).length) x
      = (List.range k).map (fun i => q.getD i x) := by
  intro k
  induction k with
  | zero => intro q; simp
  | succ k ih =>
    intro q
    rw [List.range_succ_eq_map, List.map_cons, List.map_map]
    have hcomp : ((fun i => q.getD i x) ∘ Nat.succ) = fun i => q.getD (i + 1) x :=
      rfl
    rw [hcomp]
    cases q with
    | nil =>
      simp only [List.take_nil, List.nil_append, List.length_nil, Nat.sub_zero,
        List.getD_nil]
      rw [List.replicate_succ]
      congr 1
      rw [List.map_const', List.length_range]
    | cons a q =>
      simp only [List.take_succ_cons, List.length_cons, List.cons_append,
        Nat.succ_sub_succ, List.getD_cons_zero, List.getD_cons_succ]
      congr 1
      exact ih q

theorem padToMonths_eq_append (t : List Row) (m : ℤ) (hm : 0 ≤ m) :
    padToMonths t m = t ++ List.replicate (m.toNat - t.length) zeroRow := by
  unfold padToMonths
  by_cases h : (t.length : ℤ) < m
  · rw [if_pos h]
    congr 2
    omega
  · rw [if_neg h]
    have hle : m.toNat ≤ t.length := by omega
    rw [Nat.sub_eq_zero_of_le hle, List.replicate_zero, List.append_nil]

theorem getD_map_payment_add (xs : List Row) (c : ℚ) (i : ℕ) :
    (xs.map (fun row => row.payment + c)).getD i (0 + c)
      = (xs.map Row.payment).getD i 0 + c := by
  by_cases h : i < xs.length
  · rw [List.getD_eq_getElem _ _ (by simpa using h),
      List.getD_eq_getElem _ _ (by simpa using h), List.getElem_map,
      List.getElem_map]
  · rw [List.getD_eq_default _ _ (by simpa using not_lt.mp h),
      List.getD_eq_default _ _ (by simpa using not_lt.mp h)]

/-- The payment column of a schedule truncated and zero-padded to a
nonnegative horizon, with a constant PMI added. -/
theorem padHead_map_payment (xs : List Row) (m : ℤ) (c : ℚ) (hm : 0 ≤ m) :
    (padToMonths (pdHead xs m) m).map (fun row => row.payment + c)
      = (List.range m.toNat).map
          (fun i => (xs.map Row.payment).getD i 0 + c) := by
  have hhead : pdHead xs m = xs.take m.toNat := by
    unfold pdHead
    rw [if_pos hm]
  rw [hhead, padToMonths_eq_append _ _ hm, List.map_append, List.map_replicate]
  have hzr : zeroRow.payment + c = 0 + c := rfl
  rw [hzr]
  have hmt : (xs.take m.toNat).map (fun row => row.payment + c)
      = (xs.map (fun row => row.payment + c)).take m.toNat :=
    List.map_take _ _ _
  have hlen : m.toNat - (xs.take m.toNat).length
      = m.toNat - ((xs.map (fun row => row.payment + c)).take m.toNat).length := by
    simp
  rw [hmt, hlen, take_pad_eq_range]
  apply List.map_congr_left
  intro i _
  exact getD_map_payment_add xs c i

/-- Shared specification of `build_savings_stream` for a nonnegative horizon
and column-bearing frames: exactly `months` entries, entry i being
(current payment + current PMI) − (new payment + new PMI), with payments 0
past a schedule's end while the PMI constants still apply. -/
theorem bss_spec (cur newS : PDFrame) (m : ℤ) (cp np : ℚ)
    (hm : 0 ≤ m) (h1 : cur.hasCols = true) (h2 : newS.hasCols = true) :
    build_savings_stream cur newS m cp np
      = some ((List.range m.toNat).map fun i =>
          ((cur.rows.map Row.payment).getD i 0 + cp)
            - ((newS.rows.map Row.payment).getD i 0 + np)) := by
  unfold build_savings_stream
  rw [h1, h2]
  simp only [Bool.and_self]
  rw [if_pos trivial]
  rw [padHead_map_payment cur.rows m cp hm, padHead_map_payment newS.rows m np hm]
  unfold npSub
  rw [if_pos (by simp)]
  rw [List.zipWith_map_left, List.zipWith_map_right, List.zipWith_same]

theorem getD_replicate_lt (c d : ℚ) (n i : ℕ) (h : i < n) :
    (List.replicate n c).getD i d = c := by
  rw [List.getD_eq_getElem _ _ (by simpa using h), List.getElem_replicate]

theorem getD_replicate_ge (c d : ℚ) (n i : ℕ) (h : n ≤ i) :
    (List.replicate n c).getD i d = d :=
  List.getD_eq_default _ _ (by simpa using h)

/-- C8 (amended): for column-bearing schedules (e.g. any nonempty schedule)
and months ≥ 0, the stream has exactly `months` entries, entry i being
(current payment + current PMI) − (new payment + new PMI) with payments 0
past a schedule's end while the PMI constants still apply; concretely, for
36 payments of 1000 vs 24 payments of 800 with PMI 50/25 over 30 months the
stream is 24 entries of 225 followed by 6 entries of 1025.  (For the
column-less empty frame produced by `pd.DataFrame([])` the builder instead
raises KeyError.) -/
theorem claim_C8_amended :
    (∀ (cur newS : PDFrame) (m : ℤ) (cp np : ℚ), 0 ≤ m →
      cur.hasCols = true → newS.hasCols = true →
      build_savings_stream cur newS m cp np
        = some ((List.range m.toNat).map fun i =>
            ((cur.rows.map Row.payment).getD i 0 + cp)
              - ((newS.rows.map Row.payment).getD i 0 + np))) ∧
    build_savings_stream
        ⟨List.replicate 36 ⟨0, 0, 0, 0, 1000, 0⟩, true⟩
        ⟨List.replicate 24 ⟨0, 0, 0, 0, 800, 0⟩, true⟩ 30 50 25
      = some (List.replicate 24 225 ++ List.replicate 6 1025) := by
  constructor
  · intro cur newS m cp np hm h1 h2
    exact bss_spec cur newS m cp np hm h1 h2
  · rw [bss_spec _ _ 30 50 25 (by norm_num) rfl rfl]
    congr 1
    have h30 : (30 : ℤ).toNat = 30 := rfl
    rw [h30]
    apply List.ext_getElem
    · simp
    · intro i h1 h2
      rw [List.getElem_map, List.getElem_range]
      simp only [List.length_map, List.length_range] at h1
      by_cases hi : i < 24
      · rw [List.getElem_append_left (by simpa using hi)]
        rw [List.getElem_replicate]
        rw [List.map_replicate, List.map_replicate]
        rw [getD_replicate_lt _ _ _ _ (by omega),
          getD_replicate_lt _ _ _ _ (by omega)]
        norm_num
      · rw [List.getElem_append_right (by simpa using not_lt.mp hi)]
        rw [List.getElem_replicate]
        rw [List.map_replicate, List.map_replicate]
        rw [getD_replicate_lt _ _ _ _ (by omega),
          getD_replicate_ge _ _ _ _ (by omega)]
        norm_num

/-- C8 (counterexample): the claim fails as stated on the empty (column-less)
schedule that `amortization_schedule` returns for principal ≤ 0: with a
1-month horizon the builder raises KeyError (`none`) instead of returning a
1-entry stream. -/
theorem claim_C8_counterexample :
    amortization_schedule (-5) 0 30 12 0 = some ⟨[], false⟩ ∧
    build_savings_stream ⟨[], false⟩ ⟨[], false⟩ 1 0 0 = none := by
  constructor
  · have hp : payment (-5) 0 30 12 = some (-(5 / 360)) := by
      norm_num [payment, isclose, relTol, absTol]
    rw [amortization_schedule, hp]
    dsimp only
    rw [amortLoop_nonpos _ _ _ _ _ _ (by norm_num)]
    rfl
  · rfl

/-- C8 (witness): the universal part applied to the claim's concrete
schedules (36 × 1000 vs 24 × 800, PMI 50/25, horizon 30). -/
theorem claim_C8_witness :
    (0 : ℤ) ≤ 30 ∧
    (⟨List.replicate 36 ⟨0, 0, 0, 0, 1000, 0⟩, true⟩ : PDFrame).hasCols
        = true ∧
    build_savings_stream
        ⟨List.replicate 36 ⟨0, 0, 0, 0, 1000, 0⟩, true⟩
        ⟨List.replicate 24 ⟨0, 0, 0, 0, 800, 0⟩, true⟩ 30 50 25
      = some ((List.range (30 : ℤ).toNat).map fun i =>
          (((List.replicate 36 (⟨0, 0, 0, 0, 1000, 0⟩ : Row)).map
              Row.payment).getD i 0 + 50)
            - (((List.replicate 24 (⟨0, 0, 0, 0, 800, 0⟩ : Row)).map
                Row.payment).getD i 0 + 25)) :=
  ⟨by norm_num, rfl,
    claim_C8_amended.1
      ⟨List.replicate 36 ⟨0, 0, 0, 0, 1000, 0⟩, true⟩
      ⟨List.replicate 24 ⟨0, 0, 0, 0, 800, 0⟩, true⟩ 30 50 25
      (by norm_num) rfl rfl⟩

/-- C9: the savings stream depends only on the payment columns, the horizon
and the two PMI scalars — two calls with element-wise equal payment columns
(and any other column values) return identical streams. -/
theorem claim_C9 (cur1 new1 cur2 new2 : PDFrame) (m : ℤ) (cp np : ℚ)
    (hm : 0 ≤ m)
    (hc1 : cur1.hasCols = true) (hn1 : new1.hasCols = true)
    (hc2 : cur2.hasCols = true) (hn2 : new2.hasCols = true)
    (hpc : cur1.rows.map Row.payment = cur2.rows.map Row.payment)
    (hpn : new1.rows.map Row.payment = new2.rows.map Row.payment) :
    build_savings_stream cur1 new1 m cp np
      = build_savings_stream cur2 new2 m cp np := by
  rw [bss_spec cur1 new1 m cp np hm hc1 hn1,
    bss_spec cur2 new2 m cp np hm hc2 hn2, hpc, hpn]

/-- C9 (witness): two calls whose schedules agree on the payment column but
differ in period, interest, principal, extra and balance give the same
stream. -/
theorem claim_C9_witness :
    (0 : ℤ) ≤ 2 ∧
    ([(⟨1, 5, 3, 0, 10, 90⟩ : Row)].map Row.payment
        = [(⟨7, 999, -3, 2, 10, 4⟩ : Row)].map Row.payment) ∧
    ([(⟨1, 2, 3, 4, 20, 6⟩ : Row)].map Row.payment
        = [(⟨9, 8, 7, 6, 20, 4⟩ : Row)].map Row.payment) ∧
    build_savings_stream ⟨[⟨1, 5, 3, 0, 10, 90⟩], true⟩
        ⟨[⟨1, 2, 3, 4, 20, 6⟩], true⟩ 2 1 2
      = build_savings_stream ⟨[⟨7, 999, -3, 2, 10, 4⟩], true⟩
          ⟨[⟨9, 8, 7, 6, 20, 4⟩], true⟩ 2 1 2 :=
  ⟨by norm_num, rfl, rfl,
    claim_C9 ⟨[⟨1, 5, 3, 0, 10, 90⟩], true⟩ ⟨[⟨1, 2, 3, 4, 20, 6⟩], true⟩
      ⟨[⟨7, 999, -3, 2, 10, 4⟩], true⟩ ⟨[⟨9, 8, 7, 6, 20, 4⟩], true⟩ 2 1 2
      (by norm_num) rfl rfl rfl rfl rfl rfl⟩
